import Mathlib

/-!
Verification of the provlima measurement tool against its specification.

This file shallowly embeds the measurement engine of the repository:
the adaptive-sizing WebSocket sender and receiver (stream variant),
the rate computations, the chunk-doubling client loop, the probe
scheduler, the session registry, and the HTTP chunk/probe handlers.
Each definition mirrors the corresponding Go function; theorems settle
the specification's claims about them.
-/

namespace Provlima

/-! ### Stream-variant constants (from the ndt7 sources) -/

/-- `minMessageSize`: the initial WebSocket message size (1 KiB). -/
def minMessageSize : ℕ := 1 <<< 10

/-- `maxScaledMessageSize`: the maximum message size during scaling (1 MiB). -/
def maxScaledMessageSize : ℕ := 1 <<< 20

/-- `maxMessageSize`: the maximum accepted message size (16 MiB). -/
def maxMessageSize : ℕ := 1 <<< 24

/-- `fractionForScaling`: controls the message-size scaling rate. -/
def fractionForScaling : ℕ := 16

/-- `wsProto`: the WebSocket subprotocol token for ndt7. -/
def wsProto : String := "net.measurementlab.ndt.v7"

/-! ### Sender loop (function `sender`)

One iteration of the sender's `for` loop: write one message of `size`
bytes, add it to `total`, then double `size` unless
`size >= maxScaledMessageSize || size >= total/fractionForScaling`
(the `continue` branch skips the doubling). The state is the pair
`(size, total)`. -/

/-- One iteration of the sender loop: `total += size`, then double
`size` unless the growth gate (`size >= maxScaledMessageSize ||
size >= total/fractionForScaling`) blocks it. -/
def senderStep (st : ℕ × ℕ) : ℕ × ℕ :=
  if maxScaledMessageSize ≤ st.1 ∨ (st.2 + st.1) / fractionForScaling ≤ st.1 then
    (st.1, st.2 + st.1)
  else
    (2 * st.1, st.2 + st.1)

/-- The sender state after `n` loop iterations, starting from
`size = minMessageSize` and `total = 0`. `(senderState n).1` is the size
of the message chosen for iteration `n + 1`, and `(senderState n).2` is
`totalBytesSent` at that moment. -/
def senderState (n : ℕ) : ℕ × ℕ :=
  senderStep^[n] (minMessageSize, 0)

/-! ### Receiver loop (function `receiver`)

One message-processing iteration of the receiver: a Text frame's
payload is read in full, its length is added to `total`, and the
payload is printed; a Binary frame's payload is discarded and its
length is added to `total`. -/

/-- A WebSocket message as seen by the receiver: a Text frame carrying
a payload, or a Binary frame of which only the length matters. -/
inductive WsMessage where
  | text (data : List ℕ)
  | binary (len : ℕ)
deriving DecidableEq, Repr

/-- The receiver's observable state: the cumulative byte total and the
list of payloads printed to stdout. -/
structure RecvState where
  total : ℕ
  printed : List (List ℕ)
deriving DecidableEq, Repr

/-- One iteration of the receiver loop on one message.
Text: `total += int64(len(data))`, then the payload is printed.
Binary: the payload is copied to `io.Discard` and `total += n`. -/
def receiverStep (st : RecvState) : WsMessage → RecvState
  | .text data => { total := st.total + data.length, printed := st.printed ++ [data] }
  | .binary n => { total := st.total + n, printed := st.printed }

/-- The receiver loop over a finite sequence of delivered messages. -/
def receiverRun (st : RecvState) (msgs : List WsMessage) : RecvState :=
  msgs.foldl receiverStep st

/-! ### C1: sender growth gate -/

/-- C1 counterexample: the claim asserts that in every reachable sender
loop state the size in use satisfies `size ≤ totalBytesSent / 16`; this
fails already at the initial state (a reachable state, at which the
first message's size is chosen): the size is 1024 while
`totalBytesSent / 16 = 0`, so the bound is strictly violated there. -/
theorem sender_size_le_total_div16_false :
    senderState 0 = (1024, 0) ∧
      (senderState 0).2 / fractionForScaling < (senderState 0).1 := by
  decide

/-- Invariant of the sender loop: the size is a power of two between
`2^10` and `2^20`, and it is either still the initial size or bounded
by one eighth of the bytes sent so far. -/
def senderInv (st : ℕ × ℕ) : Prop :=
  (∃ k : ℕ, 10 ≤ k ∧ k ≤ 20 ∧ st.1 = 2 ^ k) ∧
    (st.1 = minMessageSize ∨ 8 * st.1 ≤ st.2)

theorem senderInv_init : senderInv (minMessageSize, 0) := by
  constructor
  · exact ⟨10, by decide, by decide, by decide⟩
  · left; rfl

theorem senderInv_step (st : ℕ × ℕ) (h : senderInv st) : senderInv (senderStep st) := by
  obtain ⟨⟨k, hk10, hk20, hsz⟩, hbound⟩ := h
  unfold senderStep
  by_cases hgate :
      maxScaledMessageSize ≤ st.1 ∨ (st.2 + st.1) / fractionForScaling ≤ st.1
  · simp only [hgate, if_pos]
    refine ⟨⟨k, hk10, hk20, hsz⟩, ?_⟩
    rcases hbound with h1 | h8
    · left; exact h1
    · right; omega
  · simp only [hgate, if_neg, not_false_iff]
    push_neg at hgate
    obtain ⟨hlt, hdiv⟩ := hgate
    constructor
    · refine ⟨k + 1, by omega, ?_, by rw [hsz]; ring⟩
      -- from size < 2^20 and size = 2^k we get k < 20
      by_contra hk
      push_neg at hk
      have : (2 : ℕ) ^ 20 ≤ 2 ^ k := Nat.pow_le_pow_right (by norm_num) (by omega)
      have : maxScaledMessageSize ≤ st.1 := by
        rw [hsz]
        simpa [maxScaledMessageSize] using this
      omega
    · right
      -- size < (total + size)/16 gives 16*(size+1) ≤ total + size,
      -- so 8*(2*size) < total + size
      have h16 : fractionForScaling * (st.1 + 1) ≤ st.2 + st.1 := by
        have := Nat.succ_le_of_lt hdiv
        calc fractionForScaling * (st.1 + 1)
            ≤ fractionForScaling * ((st.2 + st.1) / fractionForScaling) :=
              Nat.mul_le_mul_left _ this
          _ ≤ st.2 + st.1 := Nat.mul_div_le _ _
      simp only [fractionForScaling] at h16
      omega

theorem senderInv_reachable (n : ℕ) : senderInv (senderState n) := by
  induction n with
  | zero => exact senderInv_init
  | succ n ih =>
      have : senderState (n + 1) = senderStep (senderState n) := by
        unfold senderState
        rw [Function.iterate_succ_apply']
      rw [this]
      exact senderInv_step _ ih

/-- C1 amended: in every reachable state of the sender loop the message
size never exceeds `maxScaledMessageSize` (1 MiB), the size is doubled
only when `size < maxScaledMessageSize` and `size < totalBytesSent/16`
(with `totalBytesSent` including the message just written), and every
reachable size is either the initial 1 KiB or at most one eighth (not
one sixteenth) of the bytes sent so far. -/
theorem sender_growth_gate_amended :
    (∀ n : ℕ, (senderState n).1 ≤ maxScaledMessageSize ∧
      ((senderState n).1 = minMessageSize ∨
        8 * (senderState n).1 ≤ (senderState n).2)) ∧
    (∀ s t : ℕ, (senderStep (s, t)).1 ≠ s →
      s < maxScaledMessageSize ∧ s < (t + s) / fractionForScaling ∧
        (senderStep (s, t)).1 = 2 * s) := by
  constructor
  · intro n
    obtain ⟨⟨k, hk10, hk20, hsz⟩, hbound⟩ := senderInv_reachable n
    refine ⟨?_, hbound⟩
    rw [hsz]
    have : (2 : ℕ) ^ k ≤ 2 ^ 20 := Nat.pow_le_pow_right (by norm_num) hk20
    simpa [maxScaledMessageSize] using this
  · intro s t hne
    unfold senderStep at hne ⊢
    by_cases hgate :
        maxScaledMessageSize ≤ s ∨ (t + s) / fractionForScaling ≤ s
    · simp only [hgate, if_pos] at hne
      exact absurd rfl hne
    · push_neg at hgate
      have hif : (if maxScaledMessageSize ≤ s ∨ (t + s) / fractionForScaling ≤ s
          then ((s : ℕ), t + s) else (2 * s, t + s)) = (2 * s, t + s) :=
        if_neg (not_or.mpr ⟨not_le.mpr hgate.1, not_le.mpr hgate.2⟩)
      exact ⟨hgate.1, hgate.2, by simp only [hif]⟩

/-- Witness for the amended C1 theorem at concrete inputs: the state
after one iteration satisfies the invariant, and the step from
`(1024, 16384)` doubles the size under the gate. -/
theorem sender_growth_gate_amended_witness :
    ((senderState 1).1 ≤ maxScaledMessageSize ∧
      ((senderState 1).1 = minMessageSize ∨
        8 * (senderState 1).1 ≤ (senderState 1).2)) ∧
      (1024 < maxScaledMessageSize ∧
        1024 < (16384 + 1024) / fractionForScaling ∧
        (senderStep (1024, 16384)).1 = 2 * 1024) :=
  ⟨sender_growth_gate_amended.1 1,
    sender_growth_gate_amended.2 1024 16384 (by decide)⟩

/-! ### C2: receiver counting of Text frames -/

/-- C2 counterexample: the claim asserts that a Text frame's payload
length is not added to the cumulative byte total; in the code the
receiver executes `total += int64(len(data))` for Text frames, so
processing a 5-byte Text frame from total 0 yields total 5 rather than
the total 0 the claim requires. -/
theorem receiver_text_not_counted_false :
    (receiverStep ⟨0, []⟩ (.text [1, 2, 3, 4, 5])).total = 5 ∧
      0 < (receiverStep ⟨0, []⟩ (.text [1, 2, 3, 4, 5])).total := by
  exact ⟨rfl, by decide⟩

/-- C2 amended: for every received Text frame the payload is surfaced
to the caller (appended to the printed output) AND its length IS added
to the cumulative byte total; for every Binary frame the payload is
discarded (nothing printed) and its length is added to the total. -/
theorem receiver_frame_accounting :
    ∀ (st : RecvState) (data : List ℕ) (n : ℕ),
      receiverStep st (.text data) =
        ⟨st.total + data.length, st.printed ++ [data]⟩ ∧
      receiverStep st (.binary n) = ⟨st.total + n, st.printed⟩ := by
  intro st data n
  exact ⟨rfl, rfl⟩

/-! ### Rate computations (C3)

Three sites compute a bit rate from a cumulative byte count and an
elapsed duration. Elapsed seconds are modelled as a rational; the
floating-point division `x / y` of Go is modelled by `goDiv`, which
returns `none` when the divisor is zero (in Go that division yields an
infinity or NaN, not a finite rate). -/

/-- Go floating-point division, as used by the rate sites: `none`
stands for a division whose divisor is zero (an Inf/NaN result). -/
def goDiv (num den : ℚ) : Option ℚ :=
  if den = 0 then none else some (num / den)

/-- `maybeSpeed` (package slogging): `speed = (count*8)/elapsed` when
`elapsed > 0`, else the zero value of `speed`. -/
def maybeSpeed (count : ℤ) (elapsed : ℚ) : Option ℚ :=
  if 0 < elapsed then goDiv ((count : ℚ) * 8) elapsed else some 0

/-- The speed computed by `emitAppInfo` (ndt7): `float64(total)*8/elapsed`
when `elapsed > 0`, else the zero value. -/
def emitAppInfoSpeed (total : ℤ) (elapsed : ℚ) : Option ℚ :=
  if 0 < elapsed then goDiv ((total : ℚ) * 8) elapsed else some 0

/-- The speed computed by the `handlePutChunk` completion log:
`float64(read*8) / elapsed.Seconds()`, with no guard on `elapsed`. -/
def putChunkSpeed (read : ℤ) (elapsed : ℚ) : Option ℚ :=
  goDiv ((read : ℚ) * 8) elapsed

/-- C3 counterexample: the claim asserts that every rate site yields 0
on non-positive elapsed time and never divides by a zero or negative
elapsed; the PUT-chunk completion log divides unconditionally, so at
`elapsed = 0` it performs a division by zero (`none`: no finite rate,
in particular not the 0 the claim requires), unlike the guarded
`maybeSpeed`, which yields 0 on the same input. -/
theorem putChunk_rate_guard_false :
    putChunkSpeed 1 0 = none ∧ maybeSpeed 1 0 = some 0 := by
  constructor
  · rfl
  · simp [maybeSpeed]

/-- C3 amended: the client-side chunk sampler (`maybeSpeed`) and the
ndt7 `emitAppInfo` compute `bytes × 8 / elapsedSeconds` when
`elapsedSeconds > 0` and 0 otherwise, never dividing by a non-positive
elapsed; the server PUT-chunk completion log divides unconditionally:
it yields `bytes × 8 / elapsedSeconds` whenever `elapsed ≠ 0` (even
negative) and performs a division by zero when `elapsed = 0`. -/
theorem rate_sites_amended :
    ∀ (count : ℤ) (elapsed : ℚ),
      maybeSpeed count elapsed =
        some (if 0 < elapsed then (count : ℚ) * 8 / elapsed else 0) ∧
      emitAppInfoSpeed count elapsed =
        some (if 0 < elapsed then (count : ℚ) * 8 / elapsed else 0) ∧
      putChunkSpeed count elapsed =
        (if elapsed = 0 then none else some ((count : ℚ) * 8 / elapsed)) := by
  intro count elapsed
  refine ⟨?_, ?_, ?_⟩
  · by_cases h : 0 < elapsed
    · have hne : elapsed ≠ 0 := ne_of_gt h
      simp [maybeSpeed, goDiv, h, hne]
    · simp [maybeSpeed, h]
  · by_cases h : 0 < elapsed
    · have hne : elapsed ≠ 0 := ne_of_gt h
      simp [emitAppInfoSpeed, goDiv, h, hne]
    · simp [emitAppInfoSpeed, h]
  · by_cases h : elapsed = 0
    · simp [putChunkSpeed, goDiv, h]
    · simp [putChunkSpeed, goDiv, h]

/-! ### Session registry (C6)

`sessionManager` owns a Go map from session id to creation time. The
map is modelled as an association list with map semantics: insertion
overwrites any previous binding of the same key. Mutex serialization
makes every execution a sequential interleaving of these operations,
which is what the model captures. -/

/-- The registry state: the sessions map, session id → creation time. -/
def Registry := List (String × ℕ)

/-- `sessionExists`: read-only membership test on the sessions map. -/
def sessionExists (r : Registry) (sid : String) : Bool :=
  (List.lookup sid r).isSome

/-- `createSession`: inserts `{id, now}` for a freshly generated id and
returns the id. The generated UUIDv7 is passed as the `sid` input; Go
map assignment overwrites any existing binding. -/
def createSession (r : Registry) (sid : String) (now : ℕ) : Registry :=
  (sid, now) :: r.filter (fun p => p.1 ≠ sid)

/-- `deleteSession`: removes the entry if present and returns whether
it existed. -/
def deleteSession (r : Registry) (sid : String) : Bool × Registry :=
  if sessionExists r sid then (true, r.filter (fun p => p.1 ≠ sid)) else (false, r)

theorem lookup_filter_ne (r : Registry) (sid : String) :
    List.lookup sid (r.filter (fun p => p.1 ≠ sid)) = none := by
  induction r with
  | nil => rfl
  | cons hd tl ih =>
      obtain ⟨k, v⟩ := hd
      rw [List.filter_cons]
      by_cases h : k = sid
      · have hc : ¬(decide (((k, v) : String × ℕ).1 ≠ sid) = true) := by simp [h]
        rw [if_neg hc]
        exact ih
      · have hc : decide (((k, v) : String × ℕ).1 ≠ sid) = true := by simp [h]
        rw [if_pos hc]
        have hb : (sid == k) = false := beq_false_of_ne (fun hc2 => h hc2.symm)
        simp only [List.lookup, hb]
        exact ih

theorem length_filter_of_fresh (r : Registry) (sid : String)
    (h : sessionExists r sid = false) :
    (r.filter (fun p => p.1 ≠ sid)).length = r.length := by
  induction r with
  | nil => rfl
  | cons hd tl ih =>
      obtain ⟨k, v⟩ := hd
      simp only [sessionExists, List.lookup] at h ih
      by_cases hk : sid = k
      · rw [beq_iff_eq.mpr hk] at h
        simp at h
      · rw [beq_false_of_ne hk] at h
        have hc : decide (((k, v) : String × ℕ).1 ≠ sid) = true := by
          simp
          exact fun hc2 => hk hc2.symm
        rw [List.filter_cons, if_pos hc, List.length_cons, List.length_cons]
        rw [ih h]

/-- C6: sequential contract of the session registry: a fresh id does
not exist before `create` and exists immediately after; it no longer
exists after a matching `delete`; `delete` returns true iff the id was
present, removing it exactly then; and `create` with a fresh id always
succeeds, growing the registry by one entry. -/
theorem sessionRegistry_contract :
    ∀ (r : Registry) (sid : String) (now : ℕ),
      (sessionExists r sid = false →
        (sessionExists (createSession r sid now) sid = true ∧
          (createSession r sid now).length = r.length + 1)) ∧
      (deleteSession (createSession r sid now) sid).1 = true ∧
      sessionExists (deleteSession (createSession r sid now) sid).2 sid = false ∧
      ((deleteSession r sid).1 = sessionExists r sid) ∧
      sessionExists (deleteSession r sid).2 sid = false := by
  intro r sid now
  have hcreate : sessionExists (createSession r sid now) sid = true := by
    simp [sessionExists, createSession, List.lookup]
  refine ⟨?_, ?_, ?_, ?_, ?_⟩
  · intro hfresh
    refine ⟨hcreate, ?_⟩
    simp only [createSession, List.length_cons]
    rw [length_filter_of_fresh r sid hfresh]
  · simp [deleteSession, hcreate]
  · simp only [deleteSession, hcreate, if_pos]
    simp only [sessionExists, createSession]
    have := lookup_filter_ne
      ((sid, now) :: r.filter (fun p => p.1 ≠ sid)) sid
    simpa [sessionExists] using this
  · by_cases h : sessionExists r sid
    · simp [deleteSession, h]
    · simp [deleteSession, h]
  · by_cases h : sessionExists r sid = true
    · simp only [deleteSession, h, if_pos]
      simpa [sessionExists] using lookup_filter_ne r sid
    · have hf : sessionExists r sid = false := by
        revert h; cases sessionExists r sid <;> simp
      simp [deleteSession, hf]

/-- Witness for C6 at a concrete registry: the contract applied to the
empty registry with session id "a". -/
theorem sessionRegistry_contract_witness :
    sessionExists ((("a", 5) : String × ℕ) :: []) "a" = true ∧
      (createSession [] "a" 5).length = 0 + 1 := by
  have h := (sessionRegistry_contract [] "a" 5).1 (by decide)
  simpa [createSession] using h

/-! ### Chunk-doubling client loop (C4)

`runWithProbes` runs
`for size := int64(initialChunkSize); size <= maxChunkSize; size *= 2 {
  if ctx.Err() != nil { break }; doDownload/doUpload(..., size) }`.
`cancelled i` models `ctx.Err() != nil` observed at the top of
iteration `i` (the shared 10-second budget or an explicit cancel).
The loop runs at most 24 iterations (32·2^23 = 2^28), so fuel 25 never
runs out. -/

/-- `initialChunkSize`: the starting chunk size for doubling (32 bytes). -/
def initialChunkSize : ℕ := 32

/-- `maxChunkSize`: the maximum chunk size (256 MiB). -/
def maxChunkSize : ℕ := 256 <<< 20

/-- The chunk-doubling loop: at iteration `i` with current `size`,
stop when `size > maxChunkSize`; break when cancelled; otherwise
perform one transfer of `size` bytes and continue with `2 * size`.
Returns the list of chunk sizes attempted. -/
def chunkLoopGo (cancelled : ℕ → Bool) (i s : ℕ) : ℕ → List ℕ
  | 0 => []
  | fuel + 1 =>
      if s ≤ maxChunkSize then
        if cancelled i then [] else s :: chunkLoopGo cancelled (i + 1) (2 * s) fuel
      else []

/-- The sizes attempted by one direction run of `runWithProbes`. -/
def chunkSizes (cancelled : ℕ → Bool) : List ℕ :=
  chunkLoopGo cancelled 0 initialChunkSize 25

theorem chunkLoopGo_head (cancelled : ℕ → Bool) (i s fuel : ℕ) :
    chunkLoopGo cancelled i s fuel = [] ∨
      (chunkLoopGo cancelled i s fuel).head? = some s := by
  cases fuel with
  | zero => left; rfl
  | succ fuel =>
      by_cases hs : s ≤ maxChunkSize
      · by_cases hc : cancelled i
        · left; simp [chunkLoopGo, hs, hc]
        · right; simp [chunkLoopGo, hs, hc]
      · left; simp [chunkLoopGo, hs]

theorem chunkLoopGo_chain (cancelled : ℕ → Bool) (fuel : ℕ) :
    ∀ i s, List.Chain' (fun a b => b = 2 * a) (chunkLoopGo cancelled i s fuel) := by
  induction fuel with
  | zero => intro i s; exact List.chain'_nil
  | succ fuel ih =>
      intro i s
      by_cases hs : s ≤ maxChunkSize
      · by_cases hc : cancelled i
        · simp [chunkLoopGo, hs, hc]
        · have heq : chunkLoopGo cancelled i s (fuel + 1) =
              s :: chunkLoopGo cancelled (i + 1) (2 * s) fuel := by
            simp [chunkLoopGo, hs, hc]
          rw [heq, List.chain'_cons']
          refine ⟨?_, ih (i + 1) (2 * s)⟩
          intro y hy
          rcases chunkLoopGo_head cancelled (i + 1) (2 * s) fuel with h | h
          · rw [h] at hy; simp at hy
          · rw [h] at hy
            simp at hy
            omega
      · simp [chunkLoopGo, hs]

theorem chunkLoopGo_take (fuel : ℕ) :
    ∀ (cancelled : ℕ → Bool) (i s : ℕ), ∃ n,
      chunkLoopGo cancelled i s fuel =
        (chunkLoopGo (fun _ => false) i s fuel).take n := by
  induction fuel with
  | zero => intro cancelled i s; exact ⟨0, rfl⟩
  | succ fuel ih =>
      intro cancelled i s
      by_cases hs : s ≤ maxChunkSize
      · by_cases hc : cancelled i
        · exact ⟨0, by simp [chunkLoopGo, hs, hc]⟩
        · obtain ⟨n, hn⟩ := ih cancelled (i + 1) (2 * s)
          refine ⟨n + 1, ?_⟩
          simp only [chunkLoopGo, hs, if_pos, hc, if_neg, not_false_iff,
            Bool.false_eq_true, List.take_succ_cons]
          rw [hn]
      · exact ⟨0, by simp [chunkLoopGo, hs]⟩

theorem chunkLoopGo_not_cancelled (fuel : ℕ) :
    ∀ (cancelled : ℕ → Bool) (i s j : ℕ),
      j < (chunkLoopGo cancelled i s fuel).length → cancelled (i + j) = false := by
  induction fuel with
  | zero => intro cancelled i s j h; simp [chunkLoopGo] at h
  | succ fuel ih =>
      intro cancelled i s j h
      by_cases hs : s ≤ maxChunkSize
      · by_cases hc : cancelled i
        · simp [chunkLoopGo, hs, hc] at h
        · cases j with
          | zero =>
              simpa using Bool.of_not_eq_true hc
          | succ j =>
              simp only [chunkLoopGo, hs, if_pos, hc, if_neg, not_false_iff,
                Bool.false_eq_true, List.length_cons] at h
              have := ih cancelled (i + 1) (2 * s) j (by omega)
              have harith : i + 1 + j = i + (j + 1) := by omega
              rwa [harith] at this
      · simp [chunkLoopGo, hs] at h

/-- C4: one direction run of the discrete-chunk client attempts the
sizes 32, 64, 128, …: with no cancellation the attempted sizes are
exactly the doubling sequence from 32 up to 2^28 = 256 MiB inclusive
(the loop stops once the size would exceed 2^28); in general the
attempted sizes are a prefix of that sequence, each element exactly
double the previous, every element between 32 and 256 MiB, and no
iteration starts at an index whose cancellation flag (time budget
elapsed or cancel requested) is set. -/
theorem chunk_doubling_sequence :
    ∀ cancelled : ℕ → Bool,
      chunkSizes (fun _ => false) =
        [32, 64, 128, 256, 512, 1024, 2048, 4096, 8192, 16384, 32768, 65536,
          131072, 262144, 524288, 1048576, 2097152, 4194304, 8388608,
          16777216, 33554432, 67108864, 134217728, 268435456] ∧
      (∃ n, chunkSizes cancelled = (chunkSizes (fun _ => false)).take n) ∧
      List.Chain' (fun a b => b = 2 * a) (chunkSizes cancelled) ∧
      (∀ x ∈ chunkSizes cancelled, 32 ≤ x ∧ x ≤ maxChunkSize) ∧
      (∀ i, (chunkSizes cancelled).length ≤ i ∨ cancelled i = false) := by
  intro cancelled
  have hfull : chunkSizes (fun _ => false) =
      [32, 64, 128, 256, 512, 1024, 2048, 4096, 8192, 16384, 32768, 65536,
        131072, 262144, 524288, 1048576, 2097152, 4194304, 8388608,
        16777216, 33554432, 67108864, 134217728, 268435456] := by
    decide
  refine ⟨hfull, chunkLoopGo_take 25 cancelled 0 initialChunkSize,
    chunkLoopGo_chain cancelled 25 0 initialChunkSize, ?_, ?_⟩
  · intro x hx
    obtain ⟨n, hn⟩ := chunkLoopGo_take 25 cancelled 0 initialChunkSize
    have hn' : chunkSizes cancelled = (chunkSizes (fun _ => false)).take n := hn
    rw [hn'] at hx
    have hmem : x ∈ chunkSizes (fun _ => false) := List.mem_of_mem_take hx
    rw [hfull] at hmem
    have hall : ∀ y ∈ [32, 64, 128, 256, 512, 1024, 2048, 4096, 8192, 16384,
        32768, 65536, 131072, 262144, 524288, 1048576, 2097152, 4194304,
        8388608, 16777216, 33554432, 67108864, 134217728, 268435456],
          32 ≤ y ∧ y ≤ maxChunkSize := by decide
    exact hall x hmem
  · intro i
    by_cases h : i < (chunkSizes cancelled).length
    · right
      have := chunkLoopGo_not_cancelled 25 cancelled 0 initialChunkSize i h
      simpa using this
    · left; omega

/-- Witness for C4 at a concrete cancellation pattern: with the budget
expiring before iteration 3, the attempted sizes are `[32, 64, 128]`,
all within bounds, and iteration 3 never starts. -/
theorem chunk_doubling_sequence_witness :
    (32 ≤ 32 ∧ 32 ≤ maxChunkSize) ∧
      ((chunkSizes (fun i => decide (3 ≤ i))).length ≤ 3 ∨
        (fun i => decide (3 ≤ i)) 3 = false) := by
  have h := chunk_doubling_sequence (fun i => decide (3 ≤ i))
  refine ⟨h.2.2.2.1 32 ?_, h.2.2.2.2 3⟩
  decide

/-! ### Probe scheduler (C7)

`runProbes` loops on `select { case <-ctx.Done(): return; case <-ticker.C:
probeOnce(...) }`. Each loop round is modelled as an event: `done`
(the cancellation signal was selected) or `tick o` (the ticker fired
and `probeOnce` ran with outcome `o`). `probeOnce` returns silently on
a request-construction error or a transport error, and logs one probe
record (with the response status, success or not) otherwise. -/

/-- The outcome of one probe attempt. -/
inductive ProbeOutcome where
  | reqError
  | netError
  | success (status : ℕ)
deriving DecidableEq, Repr

/-- `probeOnce`: the list of probe records it logs. A request error or
a transport error makes it return without logging; a completed request
is logged with its status, whether successful or not. -/
def probeOnce : ProbeOutcome → List ℕ
  | .reqError => []
  | .netError => []
  | .success status => [status]

/-- One round of `runProbes`'s `select`. -/
inductive ProbeEvent where
  | done
  | tick (o : ProbeOutcome)
deriving DecidableEq, Repr

/-- `runProbes` over a sequence of select rounds: returns the probe
records logged and the number of probe requests issued. Processing
stops at the first `done` event. -/
def runProbes : List ProbeEvent → List ℕ × ℕ
  | [] => ([], 0)
  | .done :: _ => ([], 0)
  | .tick o :: rest => (probeOnce o ++ (runProbes rest).1, (runProbes rest).2 + 1)

/-- C7 counterexample: the claim asserts that every failed probe
attempt is logged/reported; a probe failing with a transport error is
silently dropped: one probe request is issued but no record is
logged. -/
theorem probe_failure_logged_false :
    (runProbes [ProbeEvent.tick ProbeOutcome.netError]).2 = 1 ∧
      (runProbes [ProbeEvent.tick ProbeOutcome.netError]).1 = [] := by
  exact ⟨rfl, rfl⟩

/-- C7 amended: no probe failure terminates the scheduling loop — only
the cancellation signal does: before a `done` event every round issues
exactly one probe request, failed rounds included, and once `done` is
observed the scheduler exits, processing nothing that follows; probes
that complete with a non-success status are reported with that status,
while probes failing with a request or transport error are dropped
without a report. -/
theorem probe_scheduler_amended :
    ∀ (pre post : List ProbeEvent) (o : ProbeOutcome) (status : ℕ),
      (ProbeEvent.done ∉ pre →
        runProbes (pre ++ ProbeEvent.done :: post) = runProbes pre ∧
          (runProbes pre).2 = pre.length) ∧
      (runProbes (ProbeEvent.tick o :: post)).2 = (runProbes post).2 + 1 ∧
      probeOnce (ProbeOutcome.success status) = [status] ∧
      probeOnce ProbeOutcome.netError = [] ∧
      probeOnce ProbeOutcome.reqError = [] := by
  intro pre post o status
  refine ⟨?_, rfl, rfl, rfl, rfl⟩
  induction pre with
  | nil => intro _; exact ⟨rfl, rfl⟩
  | cons hd tl ih =>
      intro hmem
      have hhd : hd ≠ ProbeEvent.done := fun hc => hmem (hc ▸ List.mem_cons_self hd tl)
      have htl : ProbeEvent.done ∉ tl := fun hc => hmem (List.mem_cons_of_mem hd hc)
      obtain ⟨ih1, ih2⟩ := ih htl
      cases hd with
      | done => exact absurd rfl hhd
      | tick o' =>
          constructor
          · show ((probeOnce o' ++ (runProbes (tl ++ ProbeEvent.done :: post)).1,
              (runProbes (tl ++ ProbeEvent.done :: post)).2 + 1) : List ℕ × ℕ) = _
            rw [ih1]
            rfl
          · show (runProbes tl).2 + 1 = tl.length + 1
            rw [ih2]

/-- Witness for C7 applied at a concrete round sequence: one
successful tick and one transport-error tick, then cancellation; both
ticks issue requests, and rounds after the cancellation are never
processed. -/
theorem probe_scheduler_amended_witness :
    runProbes ([ProbeEvent.tick (ProbeOutcome.success 204),
        ProbeEvent.tick ProbeOutcome.netError] ++
        ProbeEvent.done :: [ProbeEvent.tick (ProbeOutcome.success 204)]) =
      runProbes [ProbeEvent.tick (ProbeOutcome.success 204),
        ProbeEvent.tick ProbeOutcome.netError] ∧
      (runProbes [ProbeEvent.tick (ProbeOutcome.success 204),
        ProbeEvent.tick ProbeOutcome.netError]).2 = 2 :=
  (probe_scheduler_amended
    [ProbeEvent.tick (ProbeOutcome.success 204),
      ProbeEvent.tick ProbeOutcome.netError]
    [ProbeEvent.tick (ProbeOutcome.success 204)]
    ProbeOutcome.netError 0).1 (by decide)

/-! ### WebSocket upgrade guard (C8)

`upgrade` checks `req.Header.Get("Sec-WebSocket-Protocol") != wsProto`
before calling the WebSocket upgrader. `http.Header.Get` returns the
empty string when the header is absent, so the header value is
modelled as an `Option String` passed through `headerGet`. -/

/-- The result of the sub-protocol gate in `upgrade`: either a client
error was written and an error returned without upgrading, or the
handler proceeds to the WebSocket upgrade handshake. -/
inductive UpgradeResult where
  | rejected (status : ℕ)
  | proceed
deriving DecidableEq, Repr

/-- `http.Header.Get`: the header value, or `""` when absent. -/
def headerGet (h : Option String) : String := h.getD ""

/-- The sub-protocol gate of `upgrade`: write `http.StatusBadRequest`
and return an error when the declared sub-protocol differs from
`wsProto`; otherwise proceed to `u.Upgrade`. -/
def upgradeGate (hdr : Option String) : UpgradeResult :=
  if headerGet hdr ≠ wsProto then .rejected 400 else .proceed

/-- C8: the responder proceeds to the WebSocket upgrade handshake if
and only if the request declares the expected sub-protocol token
`net.measurementlab.ndt.v7`; whenever the `Sec-WebSocket-Protocol`
value is absent or differs from that token, it responds 400 and
returns an error without upgrading. -/
theorem upgrade_subprotocol_gate :
    ∀ hdr : Option String,
      (upgradeGate hdr = UpgradeResult.proceed ↔ headerGet hdr = wsProto) ∧
      (headerGet hdr ≠ wsProto → upgradeGate hdr = UpgradeResult.rejected 400) ∧
      upgradeGate none = UpgradeResult.rejected 400 := by
  intro hdr
  refine ⟨⟨?_, ?_⟩, ?_, ?_⟩
  · intro h
    by_contra hne
    simp [upgradeGate, hne] at h
  · intro h
    simp [upgradeGate, h]
  · intro h
    simp [upgradeGate, h]
  · decide

/-- Witness for C8 at a concrete mismatched token: a request declaring
"bogus" is rejected with 400. -/
theorem upgrade_subprotocol_gate_witness :
    upgradeGate (some "bogus") = UpgradeResult.rejected 400 :=
  (upgrade_subprotocol_gate (some "bogus")).2.1 (by decide)

/-! ### Infinite reader and chunk bodies (C9)

`infinite.Reader.Read` runs `clear(data); return len(data), nil`: it
zeroes the caller's buffer, reports it full, and never returns an
error (in particular never `io.EOF`). The GET-chunk handler and the
upload body build a chunk of `n` bytes with
`io.LimitReader(infinite.Reader{}, n)` drained through a 1 MiB copy
buffer. -/

/-- Go's `clear(data)` on a byte slice: every element becomes zero. -/
def clearBytes (data : List ℕ) : List ℕ := data.map (fun _ => 0)

/-- `infinite.Reader.Read`: `(buffer after clear, count, error)` with
`count = len(data)` and a nil error. -/
def infiniteRead (data : List ℕ) : List ℕ × ℕ × Option String :=
  (clearBytes data, data.length, none)

/-- `bufSize`: the 1 MiB (`1 << 20`) copy buffer used by the handlers
and the client. -/
def bufSize : ℕ := 1048576

/-- `io.CopyBuffer(dst, io.LimitReader(infinite.Reader{}, n), buf)`:
each round reads `min(len(buf), remaining)` bytes from the infinite
reader into the buffer and appends them to the output, until the limit
is exhausted. One unit of fuel per output byte is enough because every
round transfers at least one byte. -/
def limitedCopyGo (fuel : ℕ) (remaining : ℕ) : List ℕ :=
  match fuel with
  | 0 => []
  | fuel + 1 =>
      if remaining = 0 then []
      else
        (infiniteRead (List.replicate (min bufSize remaining) 1)).1 ++
          limitedCopyGo fuel (remaining - min bufSize remaining)

/-- The body of a chunk of `n` bytes drawn from the infinite reader. -/
def limitedCopy (n : ℕ) : List ℕ := limitedCopyGo n n

theorem bufSize_eq : bufSize = 1 <<< 20 := rfl

theorem limitedCopyGo_spec (fuel : ℕ) :
    ∀ n, n ≤ fuel → limitedCopyGo fuel n = List.replicate n 0 := by
  induction fuel with
  | zero =>
      intro n hn
      interval_cases n
      rfl
  | succ fuel ih =>
      intro n hn
      match n with
      | 0 => rfl
      | m + 1 =>
          have hk1 : 1 ≤ min bufSize (m + 1) := by
            have : (0 : ℕ) < bufSize := by decide
            omega
          have hkle : min bufSize (m + 1) ≤ m + 1 := min_le_right _ _
          have hne : (m + 1 : ℕ) ≠ 0 := by omega
          simp only [limitedCopyGo, hne, if_neg, not_false_iff]
          rw [ih (m + 1 - min bufSize (m + 1)) (by omega)]
          have h1 : (infiniteRead
              (List.replicate (min bufSize (m + 1)) 1)).1 =
              List.replicate (min bufSize (m + 1)) 0 := by
            simp [infiniteRead, clearBytes, List.map_const]
          rw [h1, ← List.replicate_add]
          congr 1
          omega

theorem limitedCopy_replicate (n : ℕ) : limitedCopy n = List.replicate n 0 :=
  limitedCopyGo_spec n n le_rfl

theorem limitedCopy_length (n : ℕ) : (limitedCopy n).length = n := by
  rw [limitedCopy_replicate, List.length_replicate]

/-- C9: `infinite.Reader.Read` is total and never fails: for every
buffer it returns the buffer fully zeroed, the count `len(data)`, and
a nil error (never end-of-file); consequently a chunk body of `n`
bytes built from it through `io.LimitReader` and the 1 MiB copy buffer
consists of exactly `n` zero bytes. -/
theorem infinite_reader_total :
    ∀ (data : List ℕ) (n : ℕ),
      infiniteRead data = (List.replicate data.length 0, data.length, none) ∧
      limitedCopy n = List.replicate n 0 ∧
      (limitedCopy n).length = n := by
  intro data n
  refine ⟨?_, limitedCopy_replicate n, limitedCopy_length n⟩
  simp [infiniteRead, clearBytes, List.map_const]

/-! ### Discrete-chunk HTTP handlers (C5, C10)

The handlers take the session registry, the `{sid}` and `{size}` path
values, and respond with a status and (for GET) a body.
`strconv.ParseInt(s, 10, 64)` is modelled by `parseInt64`: an optional
sign, one or more decimal digits, and a signed 64-bit range check;
anything else is an error (`none`). -/

/-- Decimal digit accumulation for `parseInt64`: `none` on any
non-digit character. -/
def digitsToNat : List Char → ℕ → Option ℕ
  | [], acc => some acc
  | c :: rest, acc =>
      if c.isDigit then digitsToNat rest (10 * acc + (c.toNat - 48)) else none

/-- `strconv.ParseInt(s, 10, 64)`: optional `+`/`-`, at least one
decimal digit, value within the signed 64-bit range; `none` stands for
a parse error. -/
def parseInt64 (s : String) : Option ℤ :=
  match s.data with
  | [] => none
  | c :: rest =>
      let signAndDigits : Bool × List Char :=
        if c = '-' then (true, rest)
        else if c = '+' then (false, rest)
        else (false, c :: rest)
      match signAndDigits.2 with
      | [] => none
      | ds =>
          match digitsToNat ds 0 with
          | none => none
          | some nn =>
              let v : ℤ := if signAndDigits.1 then -(nn : ℤ) else (nn : ℤ)
              if -(2 ^ 63) ≤ v ∧ v ≤ 2 ^ 63 - 1 then some v else none

/-- A handler response: the HTTP status and the response body. -/
structure ChunkResponse where
  status : ℕ
  body : List ℕ
deriving DecidableEq, Repr

/-- `handleGetChunk`: 404 when the session id is not in the registry;
else 400 when the size fails to parse or is non-positive; else 200
with a body of `size` bytes drained from the infinite reader through
the 1 MiB copy buffer. -/
def handleGetChunk (r : Registry) (sid : String) (sizeStr : String) : ChunkResponse :=
  if sessionExists r sid = false then ⟨404, []⟩
  else
    match parseInt64 sizeStr with
    | none => ⟨400, []⟩
    | some count =>
        if count ≤ 0 then ⟨400, []⟩ else ⟨200, limitedCopy count.toNat⟩

/-- `handlePutChunk` (status only): 404 when the session id is not in
the registry; else 400 when the size fails to parse or is
non-positive; else the body is drained and 204 is written. -/
def handlePutChunk (r : Registry) (sid : String) (sizeStr : String) : ℕ :=
  if sessionExists r sid = false then 404
  else
    match parseInt64 sizeStr with
    | none => 400
    | some count => if count ≤ 0 then 400 else 204

/-- `handleProbe`: 404 when the session id is not in the registry;
else 204. -/
def handleProbe (r : Registry) (sid : String) (pid : String) : ℕ :=
  if sessionExists r sid = false then 404 else 204

/-- C5: for every GET chunk request: when the session id is present
and the size parses as a positive integer, the handler responds 200
with a body of exactly `size` bytes; it responds 404 when the session
id is unknown, and 400 when the size is malformed or non-positive. -/
theorem getChunk_contract :
    ∀ (r : Registry) (sid sizeStr : String),
      (sessionExists r sid = false → handleGetChunk r sid sizeStr = ⟨404, []⟩) ∧
      (sessionExists r sid = true →
        (∀ count : ℤ, parseInt64 sizeStr = some count → 0 < count →
          (handleGetChunk r sid sizeStr).status = 200 ∧
            (handleGetChunk r sid sizeStr).body.length = count.toNat) ∧
        (parseInt64 sizeStr = none →
          handleGetChunk r sid sizeStr = ⟨400, []⟩) ∧
        (∀ count : ℤ, parseInt64 sizeStr = some count → count ≤ 0 →
          handleGetChunk r sid sizeStr = ⟨400, []⟩)) := by
  intro r sid sizeStr
  constructor
  · intro h
    simp [handleGetChunk, h]
  · intro h
    have hne : ¬(sessionExists r sid = false) := by simp [h]
    refine ⟨?_, ?_, ?_⟩
    · intro count hparse hpos
      have hnonneg : ¬(count ≤ 0) := by omega
      simp only [handleGetChunk, hne, if_neg, not_false_iff, hparse,
        hnonneg, if_false]
      exact ⟨rfl, limitedCopy_length count.toNat⟩
    · intro hparse
      simp [handleGetChunk, hne, hparse]
    · intro count hparse hng
      simp [handleGetChunk, hne, hparse, hng]

/-- Witness for C5 at concrete requests: with session "a" registered,
a GET chunk request of size "3" responds 200 with a 3-byte body; an
unknown session responds 404; sizes "abc" (malformed) and "-5"
(non-positive) respond 400. -/
theorem getChunk_contract_witness :
    ((handleGetChunk [("a", 0)] "a" "3").status = 200 ∧
      (handleGetChunk [("a", 0)] "a" "3").body.length = (3 : ℤ).toNat) ∧
      handleGetChunk [("a", 0)] "b" "3" = ⟨404, []⟩ ∧
      handleGetChunk [("a", 0)] "a" "abc" = ⟨400, []⟩ ∧
      handleGetChunk [("a", 0)] "a" "-5" = ⟨400, []⟩ :=
  ⟨((getChunk_contract [("a", 0)] "a" "3").2 (by decide)).1 3 (by decide)
      (by decide),
    (getChunk_contract [("a", 0)] "b" "3").1 (by decide),
    ((getChunk_contract [("a", 0)] "a" "abc").2 (by decide)).2.1 (by decide),
    ((getChunk_contract [("a", 0)] "a" "-5").2 (by decide)).2.2 (-5) (by decide)
      (by decide)⟩

/-- C10: the GET-chunk, PUT-chunk, and probe handlers validate the
session id before any other input: for every request carrying an
unknown session id the response is 404, whatever the size path
parameter contains (malformed or non-positive included). -/
theorem unknown_sid_precedence :
    ∀ (r : Registry) (sid sizeStr pid : String),
      sessionExists r sid = false →
        handleGetChunk r sid sizeStr = ⟨404, []⟩ ∧
        handlePutChunk r sid sizeStr = 404 ∧
        handleProbe r sid pid = 404 := by
  intro r sid sizeStr pid h
  exact ⟨by simp [handleGetChunk, h], by simp [handlePutChunk, h],
    by simp [handleProbe, h]⟩

/-- Witness for C10: against an empty registry, a request with a
malformed size "abc" still gets 404 from all three handlers. -/
theorem unknown_sid_precedence_witness :
    handleGetChunk [] "x" "abc" = ⟨404, []⟩ ∧
      handlePutChunk [] "x" "abc" = 404 ∧
      handleProbe [] "x" "p1" = 404 :=
  unknown_sid_precedence [] "x" "abc" "p1" (by decide)

end Provlima
